import Mathlib

/-!
Verification of the M-Rep implicitization and ray-tracing core of
src/python/mrep3.py against its design specification.

Numbers are modelled by exact rationals.  The external numerical
oracles used by the source (scipy's null_space, svd, eigvals and lstsq,
and the native ray_box primitive) are modelled as function parameters;
the control flow, index arithmetic, block slicing and tolerance tests
surrounding them are translated from the source.
-/

open BigOperators

/-- math.comb (line 1 of the source), read into ℚ since every use sits
inside rational arithmetic. -/
def comb (n k : ℕ) : ℚ := (n.choose k : ℚ)

/-- Row count of the `S_v` constraint matrix (mrep3.py line 153):
`(degree1 + v0 + 1) * (degree2 + v1 + 1)`. -/
def sv_rows (p q v0 v1 : ℕ) : ℕ := (p + v0 + 1) * (q + v1 + 1)

/-- Column count of the `S_v` constraint matrix (lines 152-154):
`4 * stride` with `stride = (v0 + 1) * (v1 + 1)`. -/
def sv_cols (v0 v1 : ℕ) : ℕ := 4 * ((v0 + 1) * (v1 + 1))

/-- Row index used by the accumulation loop (line 167):
`row = (j + l) + (i + k) * (v1 + degree2 + 1)`. -/
def sv_row_idx (q v1 i j k l : ℕ) : ℕ := (j + l) + (i + k) * (v1 + q + 1)

/-- Column index used by the accumulation loop (line 168):
`l + k * (v1 + 1) + axis * stride`. -/
def sv_col_idx (v0 v1 axis k l : ℕ) : ℕ :=
  l + k * (v1 + 1) + axis * ((v0 + 1) * (v1 + 1))

/-- Coordinate selector (lines 155-159): axis 0 contributes the constant 1,
axes 1..3 the x/y/z coordinate of the control point. -/
def sv_coord (p q : ℕ) (b : Fin (p + 1) → Fin (q + 1) → Fin 3 → ℚ) (axis : Fin 4)
    (i : Fin (p + 1)) (j : Fin (q + 1)) : ℚ :=
  if axis.val = 0 then 1 else b i j ⟨axis.val - 1, by have := axis.isLt; omega⟩

/-- The summand accumulated into an `S_v` entry (lines 168-171):
`C(v0,k) C(v1,l) C(p,i) C(q,j) / (C(v0+p,i+k) C(v1+q,j+l)) * coord(axis,i,j)`. -/
def sv_term (p q v0 v1 : ℕ) (b : Fin (p + 1) → Fin (q + 1) → Fin 3 → ℚ) (axis : Fin 4)
    (k : Fin (v0 + 1)) (l : Fin (v1 + 1)) (i : Fin (p + 1)) (j : Fin (q + 1)) : ℚ :=
  comb v0 k.val * comb v1 l.val * comb p i.val * comb q j.val /
      (comb (v0 + p) (i.val + k.val) * comb (v1 + q) (j.val + l.val)) *
    sv_coord p q b axis i j

/-- The `S_v` constraint matrix (lines 142-172).  The Python `+=` loop is
rendered as the sum, over all loop indices, of the contributions landing on
a given (row, column) entry. -/
def S_v (p q v0 v1 : ℕ) (b : Fin (p + 1) → Fin (q + 1) → Fin 3 → ℚ) :
    Matrix (Fin (sv_rows p q v0 v1)) (Fin (sv_cols v0 v1)) ℚ :=
  fun r c =>
    ∑ axis : Fin 4, ∑ k : Fin (v0 + 1), ∑ l : Fin (v1 + 1),
      ∑ i : Fin (p + 1), ∑ j : Fin (q + 1),
        if sv_row_idx q v1 i.val j.val k.val l.val = r.val ∧
            sv_col_idx v0 v1 axis.val k.val l.val = c.val then
          sv_term p q v0 v1 b axis k l i j
        else 0

/-- Default extension degree (line 150): `(2 min(p,q) - 1, max(p,q) - 1)`.
Subtraction is ℕ-truncated; it agrees with the Python integers whenever
both degrees are at least 1, which the correctness theorems assume. -/
def default_v (p q : ℕ) : ℕ × ℕ := (2 * min p q - 1, max p q - 1)

/-- `S_v(b)` called with `v = None` (lines 148-150), as `build_M` does. -/
def S_v_default (p q : ℕ) (b : Fin (p + 1) → Fin (q + 1) → Fin 3 → ℚ) :
    Matrix (Fin (sv_rows p q (default_v p q).1 (default_v p q).2))
      (Fin (sv_cols (default_v p q).1 (default_v p q).2)) ℚ :=
  S_v p q (default_v p q).1 (default_v p q).2 b

/-- `i = int(null.shape[0] / 4)` (line 181): the row count of each of the
four blocks sliced out of the null-space basis. -/
def block_rows (nullRows : ℕ) : ℕ := nullRows / 4

/-- An M-Rep: the four matrices `M0, Mx, My, Mz` sliced out of the
null-space basis by `build_M` (lines 182-185). -/
structure MRep (m R : ℕ) where
  M0 : Matrix (Fin m) (Fin R) ℚ
  Mx : Matrix (Fin m) (Fin R) ℚ
  My : Matrix (Fin m) (Fin R) ℚ
  Mz : Matrix (Fin m) (Fin R) ℚ

/-- Row `r` of block `t` of the null-space basis, as an index into the full
basis: block `t` occupies rows `t * stride .. (t+1) * stride - 1`, with
`stride = (v0+1)(v1+1)` a quarter of the `S_v` column count. -/
def block_idx (v0 v1 : ℕ) (t : Fin 4) (r : Fin ((v0 + 1) * (v1 + 1))) :
    Fin (sv_cols v0 v1) :=
  ⟨t.val * ((v0 + 1) * (v1 + 1)) + r.val, by
    have h1 := r.isLt
    have h2 : t.val * ((v0 + 1) * (v1 + 1)) ≤ 3 * ((v0 + 1) * (v1 + 1)) :=
      Nat.mul_le_mul_right _ (by have := t.isLt; omega)
    simp only [sv_cols]; omega⟩

/-- `build_M` (lines 174-185).  scipy's `null_space(s)` returns a matrix
whose row count equals the column count of `s`; that matrix is the `null`
parameter here (the SVD itself is the external numerical oracle).  The
source slices it into four consecutive equal blocks `null[:i]`,
`null[i:2i]`, `null[2i:3i]`, `null[3i:4i]` with `i = null.shape[0] / 4`. -/
def build_M (v0 v1 R : ℕ) (null : Matrix (Fin (sv_cols v0 v1)) (Fin R) ℚ) :
    MRep ((v0 + 1) * (v1 + 1)) R where
  M0 := fun r c => null (block_idx v0 v1 0 r) c
  Mx := fun r c => null (block_idx v0 v1 1 r) c
  My := fun r c => null (block_idx v0 v1 2 r) c
  Mz := fun r c => null (block_idx v0 v1 3 r) c

/-- The generator lambda returned by `build_M` (lines 182-185):
`M(x,y,z) = M0 + x Mx + y My + z Mz`. -/
def Meval {m R : ℕ} (M : MRep m R) (x y z : ℚ) : Matrix (Fin m) (Fin R) ℚ :=
  M.M0 + x • M.Mx + y • M.My + z • M.Mz

/-- Modelled from the spec: the outcome type of the `build` contract in
spec sections 4.1 and 7, which names an `ImplicitizationError`.  The source
file defines no such error; `build_M_result` below is the faithful
translation of what `build_M` actually returns. -/
inductive BuildResult (v0 v1 R : ℕ) : Type where
  | ok : MRep ((v0 + 1) * (v1 + 1)) R → BuildResult v0 v1 R
  | implicitizationError : BuildResult v0 v1 R

/-- What `build_M` returns, as a `BuildResult`: the function body
(lines 179-185) has no raise statement and no rank test, so the result is
unconditionally `ok`, whatever the null-space rank `R` is. -/
def build_M_result (v0 v1 R : ℕ) (null : Matrix (Fin (sv_cols v0 v1)) (Fin R) ℚ) :
    BuildResult v0 v1 R :=
  BuildResult.ok (build_M v0 v1 R null)

/-- 3-D points and vectors. -/
abbrev Vec3 := ℚ × ℚ × ℚ

/-- `parameterize_ray` (lines 187-193): `A = M(*o)`,
`B = M(o[0]+d[0], o[1]+d[1], o[2]+d[2]) - A`. -/
def parameterize_ray {m R : ℕ} (M : MRep m R) (o d : Vec3) :
    Matrix (Fin m) (Fin R) ℚ × Matrix (Fin m) (Fin R) ℚ :=
  (Meval M o.1 o.2.1 o.2.2,
   Meval M (o.1 + d.1) (o.2.1 + d.2.1) (o.2.2 + d.2.2) - Meval M o.1 o.2.1 o.2.2)

/-- A complex value, as produced by the eigvals oracle. -/
structure Cx where
  re : ℚ
  im : ℚ

/-- The absolute tolerance `eps = 1e-8` of `raytrace` (line 317), also used
by `preimages` (line 298). -/
def eps : ℚ := 1 / 100000000

/-- The imaginary-part tolerance `1e-8` of the eigenvalue filter (line 336). -/
def tolImag : ℚ := 1 / 100000000

/-- The no-hit sentinel distance `min_dist = 1e12` (line 308). -/
def noHitDist : ℚ := 1000000000000

/-- `pt = ray_origin + ray_dir * dist` (line 345). -/
def rayPoint (o d : Vec3) (dist : ℚ) : Vec3 :=
  (o.1 + d.1 * dist, o.2.1 + d.2.1 * dist, o.2.2 + d.2.2 * dist)

/-- `np.all((pt >= bounds_min - eps) * (pt <= bounds_max + eps))` (line 348). -/
def inBoxEps (pt bmin bmax : Vec3) : Bool :=
  decide (bmin.1 - eps ≤ pt.1) && decide (pt.1 ≤ bmax.1 + eps) &&
  decide (bmin.2.1 - eps ≤ pt.2.1) && decide (pt.2.1 ≤ bmax.2.1 + eps) &&
  decide (bmin.2.2 - eps ≤ pt.2.2) && decide (pt.2.2 ≤ bmax.2.2 + eps)

/-- One element of `implicit_patches` as `raytrace` consumes it: bounds
plus the two numerical pipelines applied to the patch's M-Rep —
`pencilEigs o d` stands for `pencil_eigenvalues(*parameterize_ray(M, o, d))`
and `preim` for `preimages(M, ·)` (both built on external linear-algebra
oracles; their surrounding control flow is modelled separately below). -/
structure IPatch where
  pencilEigs : Vec3 → Vec3 → List Cx
  preim : Vec3 → Option (ℚ × ℚ)
  bmin : Vec3
  bmax : Vec3

/-- An entry of the `targets` list (line 325): `(box_dist, index, patch)`. -/
abbrev Target := ℚ × ℕ × IPatch

/-- The loop state of `raytrace` (lines 308-310, 328). -/
structure TraceState where
  min_dist : ℚ
  hit_index : Option ℕ
  hit_uv : Option (ℚ × ℚ)
  actual_search : ℕ

/-- The body of the eigenvalue loop after the two candidate filters
(lines 343-358): distance pruning, bounding-box test, preimage test,
and the hit update. -/
def trace_eig_dist (o d : Vec3) (t : Target) (s : TraceState) (dist : ℚ) :
    TraceState :=
  if dist > s.min_dist then s
  else if inBoxEps (rayPoint o d dist) t.2.2.bmin t.2.2.bmax then
    match t.2.2.preim (rayPoint o d dist) with
    | none => s
    | some uv => ⟨dist, some t.2.1, some uv, s.actual_search⟩
  else s

/-- One iteration of `for e in eigs` (lines 334-358): skip eigenvalues with
`abs(e.imag) > 1e-8`, set `dist = -e.real`, skip `dist < 0`, then continue
with the distance-level tests. -/
def trace_eig (o d : Vec3) (t : Target) (s : TraceState) (e : Cx) : TraceState :=
  if |e.im| > tolImag then s
  else if -e.re < 0 then s
  else trace_eig_dist o d t s (-e.re)

/-- One iteration of the target loop (lines 329-358): prune when
`box_dist > min_dist`, otherwise bump `actual_search` and run the
eigenvalue loop. -/
def trace_patch (o d : Vec3) (s : TraceState) (t : Target) : TraceState :=
  if t.1 > s.min_dist then s
  else
    (t.2.2.pencilEigs o d).foldl (trace_eig o d t)
      ⟨s.min_dist, s.hit_index, s.hit_uv, s.actual_search + 1⟩

/-- The pre-filter loop (lines 319-325): every patch whose `ray_box` query
returns a distance becomes a `(box_dist, index, patch)` target. -/
def box_accepted (rayBox : Vec3 → Vec3 → Vec3 → Vec3 → Option ℚ)
    (o d : Vec3) (patches : List IPatch) : List Target :=
  patches.enum.filterMap fun ip =>
    (rayBox o d ip.2.bmin ip.2.bmax).map fun bd => (bd, ip.1, ip.2)

/-- The order used by `targets.sort()` (line 326): Python tuple comparison
compares `box_dist` first and breaks ties on the (unique) patch index. -/
def targetLE (a b : Target) : Prop :=
  a.1 < b.1 ∨ (a.1 = b.1 ∧ a.2.1 ≤ b.2.1)

instance : DecidableRel targetLE := fun a b => by
  unfold targetLE; infer_instance

instance : IsTotal Target targetLE := ⟨by
  intro a b
  unfold targetLE
  rcases lt_trichotomy a.1 b.1 with h | h | h
  · exact Or.inl (Or.inl h)
  · rcases le_total a.2.1 b.2.1 with h2 | h2
    · exact Or.inl (Or.inr ⟨h, h2⟩)
    · exact Or.inr (Or.inr ⟨h.symm, h2⟩)
  · exact Or.inr (Or.inl h)⟩

instance : IsTrans Target targetLE := ⟨by
  intro a b c hab hbc
  unfold targetLE at hab hbc ⊢
  rcases hab with h1 | h1 <;> rcases hbc with h2 | h2
  · exact Or.inl (lt_trans h1 h2)
  · exact Or.inl (h2.1 ▸ h1)
  · exact Or.inl (h1.1 ▸ h2)
  · exact Or.inr ⟨h1.1.trans h2.1, le_trans h1.2 h2.2⟩⟩

/-- The sorted target list of `raytrace` (lines 319-326). -/
def sorted_targets (rayBox : Vec3 → Vec3 → Vec3 → Vec3 → Option ℚ)
    (o d : Vec3) (patches : List IPatch) : List Target :=
  List.insertionSort targetLE (box_accepted rayBox o d patches)

/-- `raytrace` (lines 304-359): returns the 5-tuple
`(min_dist, hit_index, hit_uv, len(targets), actual_search)`. -/
def raytrace (rayBox : Vec3 → Vec3 → Vec3 → Vec3 → Option ℚ)
    (o d : Vec3) (patches : List IPatch) :
    ℚ × Option ℕ × Option (ℚ × ℚ) × ℕ × ℕ :=
  let targets := sorted_targets rayBox o d patches
  let s := targets.foldl (trace_patch o d) ⟨noHitDist, none, none, 0⟩
  (s.min_dist, s.hit_index, s.hit_uv, targets.length, s.actual_search)

/-- The state-independent part of the hit filters for one eigenvalue: the
distance `-e.re` of a valid candidate (real within tolerance, non-negative,
ray point inside the inflated box, preimage recovered). -/
def valid_dist1 (o d : Vec3) (t : Target) (e : Cx) : Option ℚ :=
  if |e.im| > tolImag then none
  else if -e.re < 0 then none
  else if inBoxEps (rayPoint o d (-e.re)) t.2.2.bmin t.2.2.bmax then
    match t.2.2.preim (rayPoint o d (-e.re)) with
    | none => none
    | some _ => some (-e.re)
  else none

/-- All valid candidate hit distances a target can contribute. -/
def valid_dists (o d : Vec3) (t : Target) : List ℚ :=
  (t.2.2.pencilEigs o d).filterMap (valid_dist1 o d t)

/-- Invariant of the `raytrace` loop state: the best distance never exceeds
the sentinel, and while no hit has been accepted the state still holds the
initial sentinel values. -/
def TraceInv (s : TraceState) : Prop :=
  s.min_dist ≤ noHitDist ∧
    (s.hit_index = none → s.min_dist = noHitDist ∧ s.hit_uv = none)

/-- The domain test at the end of `preimages` (lines 298-302): the solved
parameters `(u, v)` (produced by the SVD/least-squares oracle of
lines 279-296) are returned only when both lie in `[0,1]` within `eps`;
`False` (here `none`) is returned otherwise. -/
def preimages_check (u v : ℚ) : Option (ℚ × ℚ) :=
  if u ≥ -eps ∧ u ≤ 1 + eps ∧ v ≥ -eps ∧ v ≤ 1 + eps then some (u, v) else none

/-- The SVD rank tolerance of `reduce_pencil_easy` (line 224):
`e1.max() * max(B.shape) * machine_eps`. -/
def svd_rank_tol (smax : ℚ) (mdim ndim : ℕ) (macheps : ℚ) : ℚ :=
  smax * ((max mdim ndim : ℕ) : ℚ) * macheps

/-- The near-zero test on the column maxima of `|B @ vt1.T|` (line 231):
compared against the absolute constant `1e-8`. -/
def bv_col_near_zero (colAbsMax : ℚ) : Bool :=
  decide (colAbsMax < 1 / 100000000)

/-- The near-zero test on entries of the transformed `A` (line 239):
`np.abs(A) < 1e-8`, an absolute constant. -/
def entry_near_zero (x : ℚ) : Bool :=
  decide (|x| < 1 / 100000000)

/-- A square pencil, the successful outcome of `reduce_pencil_easy`. -/
def SqPencil : Type :=
  Σ k : ℕ, Matrix (Fin k) (Fin k) ℚ × Matrix (Fin k) (Fin k) ℚ

/-- `pencil_eigenvalues` (lines 255-262): run the reducer; a tuple result
(`some`) goes to the eigvals oracle, the Python `False` result (`none`)
yields the empty list.  The guptri code after the `return` is dead. -/
def pencil_eigenvalues (m n : ℕ)
    (reduce_pencil : Matrix (Fin m) (Fin n) ℚ → Matrix (Fin m) (Fin n) ℚ →
      Option SqPencil)
    (eigvalsF : SqPencil → List Cx)
    (A B : Matrix (Fin m) (Fin n) ℚ) : List Cx :=
  match reduce_pencil A B with
  | some P => eigvalsF P
  | none => []

/-- Witness data: a 1×1 M-Rep with `Mx` the identity and the rest zero. -/
def exM : MRep 1 1 :=
  ⟨0, fun _ _ => 1, 0, 0⟩

/-- Witness data: a concrete bilinear control net. -/
def bEx : Fin 2 → Fin 2 → Fin 3 → ℚ :=
  fun i j a => (i.val : ℚ) + 2 * (j.val : ℚ) + 3 * (a.val : ℚ)

/-- Witness data: a ray-box oracle that rejects every box. -/
def rb_none : Vec3 → Vec3 → Vec3 → Vec3 → Option ℚ :=
  fun _ _ _ _ => none

/-- Witness data: a patch whose preimage oracle always reports
out-of-domain. -/
def ipatch_none : IPatch :=
  ⟨fun _ _ => [], fun _ => none, (0, 0, 0), (0, 0, 0)⟩

/-- Witness data: a null-space basis with zero columns (null-space rank 0)
at extension degree (1, 0). -/
def null_R0 : Matrix (Fin (sv_cols 1 0)) (Fin 0) ℚ :=
  fun _ _ => 0

/-- Witness data: a ray-box oracle that reports entry distance 0 for every
box, so every box-entry distance is a lower bound on any non-negative hit
distance. -/
def rb_zero : Vec3 → Vec3 → Vec3 → Vec3 → Option ℚ :=
  fun _ _ _ _ => some 0

/-- Witness data: a patch whose pencil yields one real eigenvalue at hit
distance 5 and one complex eigenvalue to be discarded, whose preimage
oracle succeeds, and whose box contains the hit point `(0, 0, 5)` of the
ray from the origin along z. -/
def ipatch_hit : IPatch :=
  ⟨fun _ _ => [⟨-5, 0⟩, ⟨-3, 1⟩], fun _ => some (1 / 2, 1 / 2),
    (-1, -1, -1), (1, 1, 10)⟩

/-- Bound for the accumulation row index: every loop contribution lands
inside the allocated matrix. -/
theorem sv_row_idx_lt (p q v0 v1 i j k l : ℕ)
    (hi : i < p + 1) (hj : j < q + 1) (hk : k < v0 + 1) (hl : l < v1 + 1) :
    sv_row_idx q v1 i j k l < sv_rows p q v0 v1 := by
  unfold sv_row_idx sv_rows
  have h1 : j + l < v1 + q + 1 := by omega
  have h2 : i + k + 1 ≤ p + v0 + 1 := by omega
  calc (j + l) + (i + k) * (v1 + q + 1)
      < (v1 + q + 1) + (i + k) * (v1 + q + 1) := by omega
    _ = (i + k + 1) * (v1 + q + 1) := by ring
    _ ≤ (p + v0 + 1) * (v1 + q + 1) := Nat.mul_le_mul_right _ h2
    _ = (p + v0 + 1) * (q + v1 + 1) := by ring

/-- Bound for the accumulation column index. -/
theorem sv_col_idx_lt (v0 v1 axis k l : ℕ)
    (ha : axis < 4) (hk : k < v0 + 1) (hl : l < v1 + 1) :
    sv_col_idx v0 v1 axis k l < sv_cols v0 v1 := by
  unfold sv_col_idx sv_cols
  have h1 : l + k * (v1 + 1) < (v0 + 1) * (v1 + 1) := by
    calc l + k * (v1 + 1) < (v1 + 1) + k * (v1 + 1) := by omega
      _ = (k + 1) * (v1 + 1) := by ring
      _ ≤ (v0 + 1) * (v1 + 1) := Nat.mul_le_mul_right _ (by omega)
  have h2 : axis * ((v0 + 1) * (v1 + 1)) ≤ 3 * ((v0 + 1) * (v1 + 1)) :=
    Nat.mul_le_mul_right _ (by omega)
  omega

/-- Division positions inside a mixed-radix index are unique. -/
theorem bounded_add_mul_inj (n : ℕ) (hn : 0 < n) {a b c d : ℕ}
    (ha : a < n) (hb : b < n) (h : a + c * n = b + d * n) : a = b ∧ c = d := by
  have hmod : a = b := by
    have h1 : (a + c * n) % n = a := by
      rw [Nat.add_mul_mod_self_right]; exact Nat.mod_eq_of_lt ha
    have h2 : (b + d * n) % n = b := by
      rw [Nat.add_mul_mod_self_right]; exact Nat.mod_eq_of_lt hb
    rw [← h1, ← h2, h]
  refine ⟨hmod, ?_⟩
  have : c * n = d * n := by omega
  exact Nat.eq_of_mul_eq_mul_right hn this

/-- The column index determines the axis and the (k, l) loop indices. -/
theorem sv_col_idx_inj (v0 v1 : ℕ) {a k l a2 k2 l2 : ℕ}
    (_ha : a < 4) (hk : k < v0 + 1) (hl : l < v1 + 1)
    (_ha2 : a2 < 4) (hk2 : k2 < v0 + 1) (hl2 : l2 < v1 + 1)
    (h : sv_col_idx v0 v1 a k l = sv_col_idx v0 v1 a2 k2 l2) :
    a = a2 ∧ k = k2 ∧ l = l2 := by
  unfold sv_col_idx at h
  have e : ∀ x y z : ℕ,
      x + y * (v1 + 1) + z * ((v0 + 1) * (v1 + 1)) =
        x + (y + z * (v0 + 1)) * (v1 + 1) := by
    intro x y z; ring
  rw [e, e] at h
  obtain ⟨hll, hrest⟩ := bounded_add_mul_inj (v1 + 1) (by omega) hl hl2 h
  obtain ⟨hkk, haa⟩ := bounded_add_mul_inj (v0 + 1) (by omega) hk hk2 hrest
  exact ⟨haa, hkk, hll⟩

/-- With (k, l) fixed, the row index determines the (i, j) loop indices. -/
theorem sv_row_idx_inj (q v1 : ℕ) {i j i2 j2 k l : ℕ}
    (hj : j < q + 1) (hj2 : j2 < q + 1) (hl : l < v1 + 1)
    (h : sv_row_idx q v1 i j k l = sv_row_idx q v1 i2 j2 k l) :
    i = i2 ∧ j = j2 := by
  unfold sv_row_idx at h
  have hb1 : j + l < v1 + q + 1 := by omega
  have hb2 : j2 + l < v1 + q + 1 := by omega
  obtain ⟨hjj, hii⟩ := bounded_add_mul_inj (v1 + q + 1) (by omega) hb1 hb2 h
  omega

/-- Each (row, column) pair of `S_v` receives exactly one loop contribution,
so the entry equals the closed-form summand of the paper's equation. -/
theorem sv_entry_general (p q v0 v1 : ℕ)
    (b : Fin (p + 1) → Fin (q + 1) → Fin 3 → ℚ) (axis : Fin 4)
    (k : Fin (v0 + 1)) (l : Fin (v1 + 1)) (i : Fin (p + 1)) (j : Fin (q + 1)) :
    S_v p q v0 v1 b
      ⟨sv_row_idx q v1 i.val j.val k.val l.val,
        sv_row_idx_lt p q v0 v1 i.val j.val k.val l.val i.isLt j.isLt k.isLt l.isLt⟩
      ⟨sv_col_idx v0 v1 axis.val k.val l.val,
        sv_col_idx_lt v0 v1 axis.val k.val l.val axis.isLt k.isLt l.isLt⟩ =
    sv_term p q v0 v1 b axis k l i j := by
  have key : ∀ (a2 : Fin 4) (k2 : Fin (v0 + 1)) (l2 : Fin (v1 + 1))
      (i2 : Fin (p + 1)) (j2 : Fin (q + 1)),
      sv_row_idx q v1 i2.val j2.val k2.val l2.val =
          sv_row_idx q v1 i.val j.val k.val l.val →
      sv_col_idx v0 v1 a2.val k2.val l2.val =
          sv_col_idx v0 v1 axis.val k.val l.val →
      a2 = axis ∧ k2 = k ∧ l2 = l ∧ i2 = i ∧ j2 = j := by
    intro a2 k2 l2 i2 j2 hrow hcol
    obtain ⟨ha, hk, hl⟩ :=
      sv_col_idx_inj v0 v1 a2.isLt k2.isLt l2.isLt axis.isLt k.isLt l.isLt hcol
    rw [hk, hl] at hrow
    obtain ⟨hi, hj⟩ := sv_row_idx_inj q v1 j2.isLt j.isLt l.isLt hrow
    exact ⟨Fin.ext ha, Fin.ext hk, Fin.ext hl, Fin.ext hi, Fin.ext hj⟩
  show (∑ a2 : Fin 4, ∑ k2 : Fin (v0 + 1), ∑ l2 : Fin (v1 + 1),
      ∑ i2 : Fin (p + 1), ∑ j2 : Fin (q + 1),
        if sv_row_idx q v1 i2.val j2.val k2.val l2.val =
              sv_row_idx q v1 i.val j.val k.val l.val ∧
            sv_col_idx v0 v1 a2.val k2.val l2.val =
              sv_col_idx v0 v1 axis.val k.val l.val then
          sv_term p q v0 v1 b a2 k2 l2 i2 j2
        else 0) = sv_term p q v0 v1 b axis k l i j
  refine (Fintype.sum_eq_single axis ?_).trans ?_
  · intro a2 ha2
    refine Finset.sum_eq_zero fun k2 _ => Finset.sum_eq_zero fun l2 _ =>
      Finset.sum_eq_zero fun i2 _ => Finset.sum_eq_zero fun j2 _ => ?_
    rw [if_neg]
    rintro ⟨hrow, hcol⟩
    exact ha2 (key a2 k2 l2 i2 j2 hrow hcol).1
  refine (Fintype.sum_eq_single k ?_).trans ?_
  · intro k2 hk2
    refine Finset.sum_eq_zero fun l2 _ =>
      Finset.sum_eq_zero fun i2 _ => Finset.sum_eq_zero fun j2 _ => ?_
    rw [if_neg]
    rintro ⟨hrow, hcol⟩
    exact hk2 (key axis k2 l2 i2 j2 hrow hcol).2.1
  refine (Fintype.sum_eq_single l ?_).trans ?_
  · intro l2 hl2
    refine Finset.sum_eq_zero fun i2 _ => Finset.sum_eq_zero fun j2 _ => ?_
    rw [if_neg]
    rintro ⟨hrow, hcol⟩
    exact hl2 (key axis k l2 i2 j2 hrow hcol).2.2.1
  refine (Fintype.sum_eq_single i ?_).trans ?_
  · intro i2 hi2
    refine Finset.sum_eq_zero fun j2 _ => ?_
    rw [if_neg]
    rintro ⟨hrow, hcol⟩
    exact hi2 (key axis k l i2 j2 hrow hcol).2.2.2.1
  refine (Fintype.sum_eq_single j ?_).trans ?_
  · intro j2 hj2
    rw [if_neg]
    rintro ⟨hrow, hcol⟩
    exact hj2 (key axis k l i j2 hrow hcol).2.2.2.2
  rw [if_pos ⟨rfl, rfl⟩]

/-- C4: for a ControlNet with degrees (p, q) ≥ 1 and no explicit extension
degree, `S_v` uses the default `v = (2 min(p,q) - 1, max(p,q) - 1)` and the
constraint-matrix entry at row `(i+k, j+l)`, column `(axis, k, l)` is
`C(v0,k) C(v1,l) C(p,i) C(q,j) / (C(v0+p,i+k) C(v1+q,j+l)) * coord(axis,i,j)`.
The shape `(p+v0+1)(q+v1+1) × 4(v0+1)(v1+1)` is carried by the matrix type
of `S_v_default` via `sv_rows` and `sv_cols`. -/
theorem claim_C4 (p q : ℕ) (hp : 0 < p) (hq : 0 < q)
    (b : Fin (p + 1) → Fin (q + 1) → Fin 3 → ℚ) (axis : Fin 4)
    (k : Fin ((default_v p q).1 + 1)) (l : Fin ((default_v p q).2 + 1))
    (i : Fin (p + 1)) (j : Fin (q + 1)) :
    ((default_v p q).1 : ℤ) = 2 * (min p q : ℤ) - 1 ∧
    ((default_v p q).2 : ℤ) = (max p q : ℤ) - 1 ∧
    sv_rows p q (default_v p q).1 (default_v p q).2 =
      (p + (default_v p q).1 + 1) * (q + (default_v p q).2 + 1) ∧
    sv_cols (default_v p q).1 (default_v p q).2 =
      4 * (((default_v p q).1 + 1) * ((default_v p q).2 + 1)) ∧
    S_v_default p q b
      ⟨sv_row_idx q (default_v p q).2 i.val j.val k.val l.val,
        sv_row_idx_lt p q (default_v p q).1 (default_v p q).2 i.val j.val k.val
          l.val i.isLt j.isLt k.isLt l.isLt⟩
      ⟨sv_col_idx (default_v p q).1 (default_v p q).2 axis.val k.val l.val,
        sv_col_idx_lt (default_v p q).1 (default_v p q).2 axis.val k.val l.val
          axis.isLt k.isLt l.isLt⟩ =
      sv_term p q (default_v p q).1 (default_v p q).2 b axis k l i j := by
  have hmin : 1 ≤ min p q := le_min hp hq
  have hmax : 1 ≤ max p q := le_trans hp (le_max_left p q)
  refine ⟨?_, ?_, rfl, rfl,
    sv_entry_general p q (default_v p q).1 (default_v p q).2 b axis k l i j⟩
  · simp only [default_v]
    omega
  · simp only [default_v]
    omega

/-- C4 witness: the theorem applied to the bilinear net `bEx` at
`p = q = 1`, `axis = 2`, `k = l = 0`, `i = 1`, `j = 0`. -/
theorem claim_C4_witness :
    (0 : ℕ) < 1 ∧
    (((default_v 1 1).1 : ℤ) = 2 * (min 1 1 : ℤ) - 1 ∧
     ((default_v 1 1).2 : ℤ) = (max 1 1 : ℤ) - 1 ∧
     sv_rows 1 1 (default_v 1 1).1 (default_v 1 1).2 =
       (1 + (default_v 1 1).1 + 1) * (1 + (default_v 1 1).2 + 1) ∧
     sv_cols (default_v 1 1).1 (default_v 1 1).2 =
       4 * (((default_v 1 1).1 + 1) * ((default_v 1 1).2 + 1)) ∧
     S_v_default 1 1 bEx ⟨2, by decide⟩ ⟨4, by decide⟩ =
       sv_term 1 1 (default_v 1 1).1 (default_v 1 1).2 bEx 2 0 0 1 0) :=
  ⟨Nat.one_pos, claim_C4 1 1 Nat.one_pos Nat.one_pos bEx 2 0 0 1 0⟩

/-- C1 (amended): `build_M` partitions the null-space basis into four
consecutive equal-row blocks assigned to `M0, Mx, My, Mz`, but each block
has `(v0+1)(v1+1)` rows — a quarter of the `S_v` COLUMN count — not
`(p+v0+1)(q+v1+1)` (which is the `S_v` row count).  Each M-Rep matrix has
shape `[(v0+1)(v1+1), R]`.  The last conjunct shows the four blocks tile
the whole basis. -/
theorem claim_C1_amended (v0 v1 R : ℕ)
    (null : Matrix (Fin (sv_cols v0 v1)) (Fin R) ℚ) :
    block_rows (sv_cols v0 v1) = (v0 + 1) * (v1 + 1) ∧
    (∀ r c, (build_M v0 v1 R null).M0 r c = null (block_idx v0 v1 0 r) c) ∧
    (∀ r c, (build_M v0 v1 R null).Mx r c = null (block_idx v0 v1 1 r) c) ∧
    (∀ r c, (build_M v0 v1 R null).My r c = null (block_idx v0 v1 2 r) c) ∧
    (∀ r c, (build_M v0 v1 R null).Mz r c = null (block_idx v0 v1 3 r) c) ∧
    (∀ idx : Fin (sv_cols v0 v1),
      ∃! tr : Fin 4 × Fin ((v0 + 1) * (v1 + 1)),
        block_idx v0 v1 tr.1 tr.2 = idx) := by
  have hS : 0 < (v0 + 1) * (v1 + 1) := Nat.mul_pos (Nat.succ_pos v0) (Nat.succ_pos v1)
  refine ⟨?_, fun r c => rfl, fun r c => rfl, fun r c => rfl, fun r c => rfl, ?_⟩
  · unfold block_rows sv_cols
    exact Nat.mul_div_cancel_left _ (by norm_num)
  · intro idx
    have hidx : idx.val < ((v0 + 1) * (v1 + 1)) * 4 := by
      have h := idx.isLt
      simp only [sv_cols] at h
      omega
    refine ⟨⟨⟨idx.val / ((v0 + 1) * (v1 + 1)), Nat.div_lt_of_lt_mul hidx⟩,
      ⟨idx.val % ((v0 + 1) * (v1 + 1)), Nat.mod_lt _ hS⟩⟩, ?_, ?_⟩
    · apply Fin.ext
      show idx.val / ((v0 + 1) * (v1 + 1)) * ((v0 + 1) * (v1 + 1)) +
        idx.val % ((v0 + 1) * (v1 + 1)) = idx.val
      rw [Nat.mul_comm]
      exact Nat.div_add_mod _ _
    · rintro ⟨t2, r2⟩ heq
      have hval : t2.val * ((v0 + 1) * (v1 + 1)) + r2.val = idx.val :=
        congrArg Fin.val heq
      have hdm := Nat.div_add_mod idx.val ((v0 + 1) * (v1 + 1))
      have hcomm : idx.val / ((v0 + 1) * (v1 + 1)) * ((v0 + 1) * (v1 + 1)) =
          ((v0 + 1) * (v1 + 1)) * (idx.val / ((v0 + 1) * (v1 + 1))) :=
        Nat.mul_comm _ _
      have hsplit : r2.val + t2.val * ((v0 + 1) * (v1 + 1)) =
          idx.val % ((v0 + 1) * (v1 + 1)) +
            idx.val / ((v0 + 1) * (v1 + 1)) * ((v0 + 1) * (v1 + 1)) := by
        omega
      obtain ⟨h1, h2⟩ := bounded_add_mul_inj ((v0 + 1) * (v1 + 1)) hS r2.isLt
        (Nat.mod_lt _ hS) hsplit
      have ht : t2 = ⟨idx.val / ((v0 + 1) * (v1 + 1)), Nat.div_lt_of_lt_mul hidx⟩ :=
        Fin.ext h2
      have hr : r2 = ⟨idx.val % ((v0 + 1) * (v1 + 1)), Nat.mod_lt _ hS⟩ :=
        Fin.ext h1
      rw [ht, hr]

/-- C1 counterexample: for the bilinear case `p = q = 1` the default
extension degree is `(1, 0)`; each `build_M` block then has
`block_rows (sv_cols 1 0) = 2` rows, while the claimed
`K = (p+v0+1)(q+v1+1) = sv_rows 1 1 1 0 = 6`.  The two differ, so the
M-Rep matrices do not have `K` rows. -/
theorem claim_C1_counterexample :
    default_v 1 1 = (1, 0) ∧ block_rows (sv_cols 1 0) = 2 ∧
    sv_rows 1 1 1 0 = 6 ∧ block_rows (sv_cols 1 0) ≠ sv_rows 1 1 1 0 := by
  refine ⟨rfl, rfl, rfl, ?_⟩
  decide

/-- C2 (amended): `parameterize_ray` returns `A = M(o)` and
`B = M(o+d) - A`, and consequently `M(o + t d) = A + t B` for every
rational `t` — with a plus sign, not the minus sign stated in the claim
and in the source docstring (the caller compensates by reading the hit
distance as `-Re(λ)`, line 340). -/
theorem claim_C2_amended (m R : ℕ) (M : MRep m R) (o d : Vec3) (t : ℚ) :
    (parameterize_ray M o d).1 = Meval M o.1 o.2.1 o.2.2 ∧
    (parameterize_ray M o d).2 =
      Meval M (o.1 + d.1) (o.2.1 + d.2.1) (o.2.2 + d.2.2) -
        (parameterize_ray M o d).1 ∧
    Meval M (o.1 + t * d.1) (o.2.1 + t * d.2.1) (o.2.2 + t * d.2.2) =
      (parameterize_ray M o d).1 + t • (parameterize_ray M o d).2 := by
  refine ⟨rfl, rfl, ?_⟩
  funext r c
  simp only [parameterize_ray, Meval, Matrix.add_apply, Matrix.sub_apply,
    Matrix.smul_apply, smul_eq_mul]
  ring

/-- C2 counterexample: for the 1×1 M-Rep `exM` (with `Mx = 1`), origin
`(0,0,0)`, direction `(1,0,0)` and `t = 1`, the claimed identity
`M(o + t d) = A - t B` fails: the left side is `1`, the right side `-1`. -/
theorem claim_C2_counterexample :
    Meval exM (0 + 1 * 1) (0 + 1 * 0) (0 + 1 * 0) ≠
      (parameterize_ray exM (0, 0, 0) (1, 0, 0)).1 -
        (1 : ℚ) • (parameterize_ray exM (0, 0, 0) (1, 0, 0)).2 := by
  intro h
  have h0 := congrFun (congrFun h 0) 0
  simp only [parameterize_ray, Meval, exM, Matrix.add_apply, Matrix.sub_apply,
    Matrix.smul_apply, Matrix.zero_apply, smul_eq_mul] at h0
  norm_num at h0

/-- C5 (amended): `build_M` has no failure path.  Even when the null-space
rank is 0 it returns an M-Rep (whose four matrices have zero columns, so
every evaluation of the generator is the empty matrix) instead of raising
an `ImplicitizationError`. -/
theorem claim_C5_amended (v0 v1 : ℕ)
    (null : Matrix (Fin (sv_cols v0 v1)) (Fin 0) ℚ) :
    build_M_result v0 v1 0 null = BuildResult.ok (build_M v0 v1 0 null) ∧
    ∀ x y z : ℚ, Meval (build_M v0 v1 0 null) x y z = 0 := by
  refine ⟨rfl, fun x y z => ?_⟩
  funext r c
  exact c.elim0

/-- C5 counterexample: at the concrete rank-0 input `null_R0` (extension
degree (1,0), zero null-space columns), `build_M` succeeds — its result is
not the `ImplicitizationError` outcome the claim requires. -/
theorem claim_C5_counterexample :
    build_M_result 1 0 0 null_R0 ≠ BuildResult.implicitizationError := by
  intro h
  exact BuildResult.noConfusion h

/-- C9 (amended): the SVD rank-detection tolerance of `reduce_pencil_easy`
(line 224) is relative — it scales linearly with the largest singular value
and is the product `smax * max(shape) * machine_eps` — but the two
near-zero tests of the reduction (lines 231 and 239) compare against the
absolute constant `1e-8`. -/
theorem claim_C9_amended :
    (∀ c smax macheps : ℚ, ∀ mdim ndim : ℕ,
      svd_rank_tol (c * smax) mdim ndim macheps =
        c * svd_rank_tol smax mdim ndim macheps) ∧
    (∀ x : ℚ, entry_near_zero x = decide (|x| < 1 / 100000000)) ∧
    (∀ x : ℚ, bv_col_near_zero x = decide (x < 1 / 100000000)) := by
  refine ⟨fun c smax macheps mdim ndim => ?_, fun x => rfl, fun x => rfl⟩
  unfold svd_rank_tol
  ring

/-- C9 counterexample: scaling the pencil by 3 scales the relative SVD
tolerance by 3 (last conjunct), but flips the near-zero entry test of
line 239 (first two conjuncts): the threshold there is the absolute
constant `1e-8`, not a quantity scaled by the matrix norm.  So not every
tolerance in the reduction is relative. -/
theorem claim_C9_counterexample :
    entry_near_zero (1 / 200000000) = true ∧
    entry_near_zero (3 * (1 / 200000000)) = false ∧
    svd_rank_tol (3 * 1) 6 8 (1 / 1000000) =
      3 * svd_rank_tol 1 6 8 (1 / 1000000) := by
  refine ⟨?_, ?_, by norm_num [svd_rank_tol]⟩
  · simp only [entry_near_zero, decide_eq_true_eq]
    rw [abs_of_pos (by norm_num)]
    norm_num
  · simp only [entry_near_zero, decide_eq_false_iff_not, not_lt]
    rw [abs_of_pos (by norm_num)]
    norm_num

/-- Every step of the eigenvalue loop either leaves the state unchanged or
accepts a hit: it writes distance `-e.re` (non-negative and not above the
current best), the patch index and the recovered parameters, keeping the
search counter. -/
theorem trace_eig_cases (o d : Vec3) (t : Target) (s : TraceState) (e : Cx) :
    trace_eig o d t s e = s ∨
    ∃ uv, trace_eig o d t s e = ⟨-e.re, some t.2.1, some uv, s.actual_search⟩ ∧
      0 ≤ -e.re ∧ -e.re ≤ s.min_dist := by
  unfold trace_eig trace_eig_dist
  by_cases h1 : |e.im| > tolImag
  · left; simp [h1]
  · by_cases h2 : -e.re < 0
    · left; simp [h1, h2]
    · by_cases h3 : -e.re > s.min_dist
      · left; simp [h1, h2, h3]
      · by_cases h4 : inBoxEps (rayPoint o d (-e.re)) t.2.2.bmin t.2.2.bmax
        · cases h5 : t.2.2.preim (rayPoint o d (-e.re)) with
          | none => left; simp [h1, h2, h3, h4, h5]
          | some uv =>
            right
            exact ⟨uv, by simp [h1, h2, h3, h4, h5],
              le_of_not_lt h2, le_of_not_lt h3⟩
        · left; simp [h1, h2, h3, h4]

/-- The best distance after one eigenvalue step is the minimum of the
current best and the eigenvalue's valid candidate distance, if any. -/
theorem trace_eig_min_dist (o d : Vec3) (t : Target) (s : TraceState) (e : Cx) :
    (trace_eig o d t s e).min_dist =
      match valid_dist1 o d t e with
      | none => s.min_dist
      | some dist => min s.min_dist dist := by
  unfold trace_eig trace_eig_dist valid_dist1
  by_cases h1 : |e.im| > tolImag
  · simp [h1]
  · by_cases h2 : -e.re < 0
    · simp [h1, h2]
    · by_cases h4 : inBoxEps (rayPoint o d (-e.re)) t.2.2.bmin t.2.2.bmax
      · cases h5 : t.2.2.preim (rayPoint o d (-e.re)) with
        | none => by_cases h3 : -e.re > s.min_dist <;> simp [h1, h2, h3, h4, h5]
        | some uv =>
          by_cases h3 : -e.re > s.min_dist
          · simp [h1, h2, h3, h4, h5, min_eq_left (le_of_lt h3)]
          · simp [h1, h2, h3, h4, h5, min_eq_right (le_of_not_lt h3)]
      · by_cases h3 : -e.re > s.min_dist <;> simp [h1, h2, h3, h4]

/-- Pulling one element out of a running minimum. -/
theorem foldr_min_pull (l : List ℚ) (a b : ℚ) :
    l.foldr min (min a b) = min b (l.foldr min a) := by
  induction l with
  | nil => simp [min_comm]
  | cons x xs ih =>
    simp only [List.foldr_cons, ih]
    rw [min_left_comm]

/-- A running minimum whose seed is below every element is unchanged. -/
theorem foldr_min_of_le (l : List ℚ) (a : ℚ) (h : ∀ x ∈ l, a ≤ x) :
    l.foldr min a = a := by
  induction l with
  | nil => rfl
  | cons x xs ih =>
    simp only [List.foldr_cons]
    rw [ih fun y hy => h y (List.mem_cons_of_mem x hy)]
    exact min_eq_right (h x (List.mem_cons_self x xs))

/-- Two running minima over the same seed commute. -/
theorem foldr_min_comm (l1 l2 : List ℚ) (a : ℚ) :
    l1.foldr min (l2.foldr min a) = l2.foldr min (l1.foldr min a) := by
  induction l1 with
  | nil => rfl
  | cons x xs ih =>
    simp only [List.foldr_cons]
    rw [ih, min_comm x (List.foldr min a xs), ← foldr_min_pull]

/-- The eigenvalue loop folds the minimum over all valid candidate
distances of the list. -/
theorem foldl_trace_eig_min (o d : Vec3) (t : Target) (eigs : List Cx) :
    ∀ s : TraceState,
      (eigs.foldl (trace_eig o d t) s).min_dist =
        (eigs.filterMap (valid_dist1 o d t)).foldr min s.min_dist := by
  induction eigs with
  | nil => intro s; rfl
  | cons e es ih =>
    intro s
    simp only [List.foldl_cons, List.filterMap_cons]
    cases h : valid_dist1 o d t e with
    | none =>
      rw [ih, trace_eig_min_dist, h]
    | some dist =>
      rw [ih, trace_eig_min_dist, h]
      simp only [List.foldr_cons]
      exact foldr_min_pull _ s.min_dist dist

/-- The best distance after processing one target: when the box-entry
distance bounds the target's valid hits from below, the result is the
running minimum over all its valid candidate distances — also when the
target is pruned. -/
theorem trace_patch_min_dist (o d : Vec3) (s : TraceState) (t : Target)
    (ht : ∀ x ∈ valid_dists o d t, t.1 ≤ x) :
    (trace_patch o d s t).min_dist = (valid_dists o d t).foldr min s.min_dist := by
  unfold trace_patch
  by_cases h : t.1 > s.min_dist
  · rw [if_pos h]
    exact (foldr_min_of_le _ _ fun x hx =>
      le_of_lt (lt_of_lt_of_le h (ht x hx))).symm
  · rw [if_neg h, foldl_trace_eig_min]
    rfl

/-- The best distance after the whole target loop is the running minimum
over the valid candidate distances of every target. -/
theorem foldl_trace_patch_min (o d : Vec3) (ts : List Target) :
    ∀ s : TraceState, (∀ t ∈ ts, ∀ x ∈ valid_dists o d t, t.1 ≤ x) →
      (ts.foldl (trace_patch o d) s).min_dist =
        (ts.flatMap (valid_dists o d)).foldr min s.min_dist := by
  induction ts with
  | nil => intro s _; rfl
  | cons t ts ih =>
    intro s H
    simp only [List.foldl_cons, List.flatMap_cons]
    rw [ih _ fun t2 h2 => H t2 (List.mem_cons_of_mem t h2),
      trace_patch_min_dist o d s t (H t (List.mem_cons_self t ts)),
      List.foldr_append, foldr_min_comm]

/-- targetLE orders by box-entry distance. -/
theorem targetLE_le {a b : Target} (h : targetLE a b) : a.1 ≤ b.1 := by
  unfold targetLE at h
  rcases h with h | h
  · exact le_of_lt h
  · exact le_of_eq h.1

/-- The eigenvalue step preserves the trace invariant. -/
theorem traceInv_eig (o d : Vec3) (t : Target) (s : TraceState) (e : Cx)
    (h : TraceInv s) : TraceInv (trace_eig o d t s e) := by
  rcases trace_eig_cases o d t s e with hc | ⟨uv, hc, h0, hle⟩
  · rw [hc]; exact h
  · rw [hc]
    refine ⟨le_trans hle h.1, fun hn => ?_⟩
    simp at hn

/-- The eigenvalue loop preserves the trace invariant. -/
theorem traceInv_foldl (o d : Vec3) (t : Target) (eigs : List Cx) :
    ∀ s : TraceState, TraceInv s → TraceInv (eigs.foldl (trace_eig o d t) s) := by
  induction eigs with
  | nil => intro s h; exact h
  | cons e es ih => intro s h; exact ih _ (traceInv_eig o d t s e h)

/-- The target step preserves the trace invariant. -/
theorem traceInv_patch (o d : Vec3) (s : TraceState) (t : Target)
    (h : TraceInv s) : TraceInv (trace_patch o d s t) := by
  unfold trace_patch
  by_cases hp : t.1 > s.min_dist
  · rw [if_pos hp]; exact h
  · rw [if_neg hp]
    exact traceInv_foldl o d t _ _ ⟨h.1, h.2⟩

/-- The target loop preserves the trace invariant. -/
theorem traceInv_fold_targets (o d : Vec3) (ts : List Target) :
    ∀ s : TraceState, TraceInv s → TraceInv (ts.foldl (trace_patch o d) s) := by
  induction ts with
  | nil => intro s h; exact h
  | cons t ts ih => intro s h; exact ih _ (traceInv_patch o d s t h)

/-- The eigenvalue step never touches the search counter. -/
theorem trace_eig_search (o d : Vec3) (t : Target) (s : TraceState) (e : Cx) :
    (trace_eig o d t s e).actual_search = s.actual_search := by
  rcases trace_eig_cases o d t s e with hc | ⟨uv, hc, _, _⟩ <;> rw [hc]

/-- Neither does the eigenvalue loop. -/
theorem foldl_trace_eig_search (o d : Vec3) (t : Target) (eigs : List Cx) :
    ∀ s : TraceState,
      (eigs.foldl (trace_eig o d t) s).actual_search = s.actual_search := by
  induction eigs with
  | nil => intro s; rfl
  | cons e es ih =>
    intro s
    rw [List.foldl_cons, ih, trace_eig_search]

/-- A target bumps the search counter by at most one. -/
theorem trace_patch_search (o d : Vec3) (s : TraceState) (t : Target) :
    (trace_patch o d s t).actual_search ≤ s.actual_search + 1 := by
  unfold trace_patch
  by_cases hp : t.1 > s.min_dist
  · rw [if_pos hp]; omega
  · rw [if_neg hp, foldl_trace_eig_search]

/-- The search counter never exceeds the number of targets processed. -/
theorem fold_targets_search (o d : Vec3) (ts : List Target) :
    ∀ s : TraceState,
      (ts.foldl (trace_patch o d) s).actual_search ≤ s.actual_search + ts.length := by
  induction ts with
  | nil => intro s; simp
  | cons t ts ih =>
    intro s
    calc (List.foldl (trace_patch o d) (trace_patch o d s t) ts).actual_search
        ≤ (trace_patch o d s t).actual_search + ts.length := ih _
      _ ≤ s.actual_search + 1 + ts.length := by
          have := trace_patch_search o d s t; omega
      _ = s.actual_search + (t :: ts).length := by
          simp [List.length_cons]; omega

/-- A valid candidate distance is never negative: `valid_dist1` only
produces `-e.re` after the `dist < 0` filter has passed. -/
theorem valid_dist1_nonneg (o d : Vec3) (t : Target) (e : Cx) (x : ℚ)
    (h : valid_dist1 o d t e = some x) : 0 ≤ x := by
  unfold valid_dist1 at h
  split_ifs at h with h1 h2 h3
  · cases hp : t.2.2.preim (rayPoint o d (-e.re)) with
    | none => rw [hp] at h; exact Option.noConfusion h
    | some uv =>
      rw [hp] at h
      cases h
      exact le_of_not_lt h2

/-- Every element of a target's valid candidate distance list is
non-negative. -/
theorem valid_dists_nonneg (o d : Vec3) (t : Target) (x : ℚ)
    (h : x ∈ valid_dists o d t) : 0 ≤ x := by
  unfold valid_dists at h
  rw [List.mem_filterMap] at h
  obtain ⟨e, _, he⟩ := h
  exact valid_dist1_nonneg o d t e x he

/-- The witness patch contributes exactly one valid candidate distance, 5:
the real eigenvalue survives every filter and the complex one is
discarded. -/
theorem ipatch_hit_valid_dists :
    valid_dists (0, 0, 0) (0, 0, 1) ((0 : ℚ), 0, ipatch_hit) = [5] := by
  unfold valid_dists ipatch_hit valid_dist1
  norm_num [tolImag, inBoxEps, rayPoint, eps]
  simp only [List.filterMap_cons, List.filterMap_nil]
  norm_num

/-- C3: `raytrace` examines the box-accepted patches in ascending order of
box-entry distance (the fold runs over `sorted_targets`, which is sorted);
a patch whose box-entry distance exceeds the current best hit distance
contributes no computation at all (the step returns the state unchanged,
whatever the patch's pencil would have produced); and — given that every
box-entry distance is a lower bound on the patch's valid hit distances,
the exactness assumption the spec states for the bounding boxes — the
returned distance is the minimum over all valid candidate hits, seeded
with the no-hit sentinel. -/
theorem claim_C3 (rayBox : Vec3 → Vec3 → Vec3 → Vec3 → Option ℚ)
    (o d : Vec3) (patches : List IPatch)
    (H : ∀ t ∈ sorted_targets rayBox o d patches,
      ∀ x ∈ valid_dists o d t, t.1 ≤ x) :
    List.Sorted (fun a b : Target => a.1 ≤ b.1)
      (sorted_targets rayBox o d patches) ∧
    (∀ (s : TraceState) (t : Target), t.1 > s.min_dist →
      trace_patch o d s t = s) ∧
    (raytrace rayBox o d patches).1 =
      ((sorted_targets rayBox o d patches).flatMap
        (valid_dists o d)).foldr min noHitDist := by
  refine ⟨?_, ?_, ?_⟩
  · have hs := List.sorted_insertionSort targetLE
      (box_accepted rayBox o d patches)
    exact List.Pairwise.imp (fun h => targetLE_le h) hs
  · intro s t h
    unfold trace_patch
    rw [if_pos h]
  · exact foldl_trace_patch_min o d (sorted_targets rayBox o d patches)
      ⟨noHitDist, none, none, 0⟩ H

/-- C3 witness: the theorem at a one-patch scene traced along z from the
origin, with a box oracle reporting entry distance 0 for the patch's box.
The lower-bound hypothesis holds non-vacuously: the single target has
box-entry distance 0, its valid candidate distance list is the non-empty
`[5]` (by `ipatch_hit_valid_dists`), and 0 bounds every valid candidate
distance from below.  The final conjunct evaluates the conclusion at this
input: `raytrace` returns the nearest valid hit distance 5. -/
theorem claim_C3_witness :
    List.Sorted (fun a b : Target => a.1 ≤ b.1)
      (sorted_targets rb_zero (0, 0, 0) (0, 0, 1) [ipatch_hit]) ∧
    (∀ (s : TraceState) (t : Target), t.1 > s.min_dist →
      trace_patch (0, 0, 0) (0, 0, 1) s t = s) ∧
    (raytrace rb_zero (0, 0, 0) (0, 0, 1) [ipatch_hit]).1 =
      ((sorted_targets rb_zero (0, 0, 0) (0, 0, 1) [ipatch_hit]).flatMap
        (valid_dists (0, 0, 0) (0, 0, 1))).foldr min noHitDist ∧
    (raytrace rb_zero (0, 0, 0) (0, 0, 1) [ipatch_hit]).1 = 5 := by
  have hts : sorted_targets rb_zero (0, 0, 0) (0, 0, 1) [ipatch_hit] =
      [((0 : ℚ), 0, ipatch_hit)] := rfl
  have H : ∀ t ∈ sorted_targets rb_zero (0, 0, 0) (0, 0, 1) [ipatch_hit],
      ∀ x ∈ valid_dists (0, 0, 0) (0, 0, 1) t, t.1 ≤ x := by
    intro t ht x hx
    rw [hts, List.mem_singleton] at ht
    subst ht
    exact valid_dists_nonneg (0, 0, 0) (0, 0, 1) ((0 : ℚ), 0, ipatch_hit) x hx
  obtain ⟨h1, h2, h3⟩ := claim_C3 rb_zero (0, 0, 0) (0, 0, 1) [ipatch_hit] H
  refine ⟨h1, h2, h3, ?_⟩
  rw [h3, hts]
  simp only [List.flatMap_cons, List.flatMap_nil, List.append_nil,
    ipatch_hit_valid_dists, List.foldr_cons, List.foldr_nil]
  rw [min_eq_left (by norm_num [noHitDist])]

/-- C6: whenever the reducer reports a degenerate pencil (the Python
`False`, modelled `none`), `pencil_eigenvalues` returns the empty candidate
list; the function is total, so no exception reaches the caller. -/
theorem claim_C6 (m n : ℕ)
    (reduce_pencil : Matrix (Fin m) (Fin n) ℚ → Matrix (Fin m) (Fin n) ℚ →
      Option SqPencil)
    (eigvalsF : SqPencil → List Cx)
    (A B : Matrix (Fin m) (Fin n) ℚ)
    (h : reduce_pencil A B = none) :
    pencil_eigenvalues m n reduce_pencil eigvalsF A B = [] := by
  unfold pencil_eigenvalues
  rw [h]

/-- C6 witness: the theorem at a concrete always-degenerate reducer and an
eigvals oracle that would return a non-empty list if it were consulted. -/
theorem claim_C6_witness :
    pencil_eigenvalues 1 1 (fun _ _ => none) (fun _ => [⟨1, 1⟩]) 0 0 = [] :=
  claim_C6 1 1 (fun _ _ => none) (fun _ => [⟨1, 1⟩]) 0 0 rfl

/-- C7: an eigenvalue of the reduced ray-patch pencil is retained as a
surface-crossing candidate (processing continues with the distance-level
tests at `t = -Re(λ)`) exactly when `|Im(λ)| ≤ 1e-8` and `-Re(λ) ≥ 0`;
every other eigenvalue is discarded with the state unchanged. -/
theorem claim_C7 (o d : Vec3) (t : Target) (s : TraceState) (e : Cx) :
    trace_eig o d t s e =
      if |e.im| ≤ tolImag ∧ 0 ≤ -e.re then trace_eig_dist o d t s (-e.re)
      else s := by
  unfold trace_eig
  by_cases h1 : |e.im| > tolImag
  · rw [if_pos h1, if_neg fun hc => absurd h1 (not_lt.mpr hc.1)]
  · rw [if_neg h1]
    by_cases h2 : -e.re < 0
    · rw [if_pos h2, if_neg fun hc => absurd h2 (not_lt.mpr hc.2)]
    · rw [if_neg h2, if_pos ⟨le_of_not_lt h1, le_of_not_lt h2⟩]

/-- C8: the domain check of `preimages` returns a parameter pair only when
both parameters lie in `[0,1]` within the absolute tolerance `1e-8` (and
then it returns exactly the solved pair); outside that range it reports
out-of-domain (`none`, the Python `False`); and whenever the preimage
oracle reports out-of-domain for the candidate point, the `raytrace` inner
step rejects the candidate and leaves the scan state unchanged — no
exception, the scan continues. -/
theorem claim_C8 (u v : ℚ) :
    (∀ p, preimages_check u v = some p →
      p = (u, v) ∧ -eps ≤ u ∧ u ≤ 1 + eps ∧ -eps ≤ v ∧ v ≤ 1 + eps) ∧
    (¬(-eps ≤ u ∧ u ≤ 1 + eps ∧ -eps ≤ v ∧ v ≤ 1 + eps) →
      preimages_check u v = none) ∧
    (∀ (o d : Vec3) (t : Target) (s : TraceState) (dist : ℚ),
      t.2.2.preim (rayPoint o d dist) = none →
      trace_eig_dist o d t s dist = s) := by
  refine ⟨?_, ?_, ?_⟩
  · intro p hp
    unfold preimages_check at hp
    split_ifs at hp with h
    · cases hp
      exact ⟨rfl, h.1, h.2.1, h.2.2.1, h.2.2.2⟩
  · intro h
    unfold preimages_check
    rw [if_neg h]
  · intro o d t s dist h
    unfold trace_eig_dist
    by_cases h1 : dist > s.min_dist
    · rw [if_pos h1]
    · rw [if_neg h1]
      by_cases h2 : inBoxEps (rayPoint o d dist) t.2.2.bmin t.2.2.bmax
      · simp [h2, h]
      · simp [h2]

/-- C8 witness: the theorem at `u = 2, v = 0` (out of range, so the check
reports out-of-domain) and at a concrete patch whose preimage oracle always
reports out-of-domain (the inner step leaves the state unchanged). -/
theorem claim_C8_witness :
    preimages_check 2 0 = none ∧
    trace_eig_dist (0, 0, 0) (0, 0, 1) ((0 : ℚ), 0, ipatch_none)
      ⟨noHitDist, none, none, 0⟩ 5 = ⟨noHitDist, none, none, 0⟩ :=
  ⟨(claim_C8 2 0).2.1 (by
      intro hcon
      have h2 := hcon.2.1
      rw [eps] at h2
      norm_num at h2),
   (claim_C8 2 0).2.2 (0, 0, 0) (0, 0, 1) ((0 : ℚ), 0, ipatch_none)
     ⟨noHitDist, none, none, 0⟩ 5 rfl⟩

/-- C10: `raytrace` always returns a 5-tuple whose distance never exceeds
the sentinel `1e12` (so no farther intersection is ever reported); when no
candidate hit was accepted the tuple carries the full no-hit sentinel
`(1e12, None, None)`; the fourth component is the number of box-accepted
patches and the fifth (the number actually searched) never exceeds it. -/
theorem claim_C10 (rayBox : Vec3 → Vec3 → Vec3 → Vec3 → Option ℚ)
    (o d : Vec3) (patches : List IPatch) :
    (raytrace rayBox o d patches).1 ≤ noHitDist ∧
    ((raytrace rayBox o d patches).2.1 = none →
      (raytrace rayBox o d patches).1 = noHitDist ∧
      (raytrace rayBox o d patches).2.2.1 = none) ∧
    (raytrace rayBox o d patches).2.2.2.1 =
      (box_accepted rayBox o d patches).length ∧
    (raytrace rayBox o d patches).2.2.2.2 ≤
      (raytrace rayBox o d patches).2.2.2.1 := by
  have hinv : TraceInv ((sorted_targets rayBox o d patches).foldl
      (trace_patch o d) ⟨noHitDist, none, none, 0⟩) :=
    traceInv_fold_targets o d _ _ ⟨le_refl _, fun _ => ⟨rfl, rfl⟩⟩
  have hsearch := fold_targets_search o d (sorted_targets rayBox o d patches)
    ⟨noHitDist, none, none, 0⟩
  have hlen : (sorted_targets rayBox o d patches).length =
      (box_accepted rayBox o d patches).length :=
    (List.perm_insertionSort targetLE _).length_eq
  exact ⟨hinv.1, fun hn => hinv.2 hn, hlen, by simpa using hsearch⟩

/-- C10 witness: the theorem at the all-rejecting box oracle and the empty
scene, where no candidate is accepted and the sentinel tuple is returned. -/
theorem claim_C10_witness :
    (raytrace rb_none (0, 0, 0) (0, 0, 1) []).1 = noHitDist ∧
    (raytrace rb_none (0, 0, 0) (0, 0, 1) []).2.2.1 = none :=
  (claim_C10 rb_none (0, 0, 0) (0, 0, 1) []).2.1 rfl
